import Mathlib

/-!
Shallow embedding of the MLR-Copilot agent harness core:
`reactagent/environment.py` (session controller) and
`reactagent/agents/agent_research.py` (agent control loop).

Time is modelled as natural-number clock readings passed explicitly where
the Python code calls `time.time()`.  The behaviour of a registered tool
callable is modelled as a function from its (dict) arguments to an outcome
that is either a returned observation string or one of the exception kinds
the Python `except` clauses of `Environment.execute` distinguish.
-/

namespace MLRCopilot

/-- `Action` from `reactagent/schema.py`: a name plus arguments.  Python's
`isinstance(action_input, dict)` test is mirrored by the two constructors:
`dict` holds a string-keyed mapping, `nondict` holds a raw non-mapping value. -/
inductive ActionArgs where
  | dict (m : List (String × String))
  | nondict (raw : String)
deriving DecidableEq

structure Action where
  name : String
  args : ActionArgs
deriving DecidableEq

/-- Outcome of invoking a registered tool callable with dict arguments:
either it returns an observation string or it raises one of the exception
kinds that `Environment.execute` distinguishes with `except` clauses. -/
inductive ToolOutcome where
  | ok (obs : String)
  | tooLongPrompt
  | llmError (msg : String)
  | envException (msg : String)
  | typeError (msg : String)
  | timeout
  | other (msg : String)
deriving DecidableEq

/-- An entry of the action registry (`ActionInfo` in the Python schema):
name, usage schema, primitive flag, and implementing callable. -/
structure ActionInfo where
  name : String
  usage : List (String × String)
  is_primitive : Bool
  function : List (String × String) → ToolOutcome

/-- `Step` from the Python schema: executed action, observation, timestamp. -/
structure Step where
  action : Action
  observation : String
  timestamp : Nat

/-- `Trace` from the Python schema. -/
structure Trace where
  steps : List Step
  low_level_steps : List Step
  action_infos : List ActionInfo
  task_description : String

/-- Session-controller state: trace plus budgets, mirroring the fields of
`Environment` that `is_final`/`execute` consult (`self._trace`,
`args.max_steps`, `args.max_time`, `self._start_time`, `self._action_infos`). -/
structure EnvState where
  trace : Trace
  action_infos : List ActionInfo
  max_steps : Nat
  max_time : Nat
  start_time : Nat

/-- An `execute` call either returns an observation string or lets an
exception propagate (the `raise` paths in `Environment.execute`). -/
inductive ExnKind where
  | timeoutExn
  | generic (msg : String)
deriving DecidableEq

inductive ExecResult where
  | observed (obs : String)
  | raised (e : ExnKind)
deriving DecidableEq

/-- Registry lookup, mirroring `action_name not in list(self.action_infos.keys())`
followed by `self.action_infos[action_name]`. -/
def lookupAction (infos : List ActionInfo) (name : String) : Option ActionInfo :=
  infos.find? (fun i => i.name == name)

/-- `", ".join(self.action_infos.keys())` -/
def actionNamesJoined (infos : List ActionInfo) : String :=
  String.intercalate ", " (infos.map (·.name))

/-- The usage block built in `Environment.execute`:
`",\n            ".join(f"{k}: [{v}]" ...)` wrapped in braces. -/
def usageBlock (usage : List (String × String)) : String :=
  "\x7b\n            "
    ++ String.intercalate ",\n            "
        (usage.map (fun kv => kv.1 ++ ": [" ++ kv.2 ++ "]"))
    ++ "\n\x7d"

/-- The `invalid_action_error` message built in `Environment.execute`. -/
def invalidInputError (name : String) (usage : List (String × String)) : String :=
  "The action input for " ++ name
    ++ " needs to be a valid json with proper entries. You may have missed the comma between entries. Please use the correct format and try again:\n"
    ++ usageBlock usage

def finalAnswerObs : String := "end"

def shutdownObs : String :=
  "The environment has shut down because the maximum number of steps or time has been reached. Please submit your final answer."

def invalidActionObs (name : String) (infos : List ActionInfo) : String :=
  "Invalid action: " ++ name
    ++ ". Action did not execute. Please use one of the following actions:\n"
    ++ actionNamesJoined infos

def tooLongObs : String := "EnvError: too long input for the tool"

/-- Python's `needle in haystack` substring test. -/
def containsSubstr (needle hay : List Char) : Bool :=
  hay.tails.any (fun t => needle.isPrefixOf t)

/-- `Environment.is_final`, with the `time.time()` reading passed as `tnow`. -/
def is_final (env : EnvState) (tnow : Nat) : Bool :=
  decide (env.trace.steps.length ≥ env.max_steps)
    || env.trace.steps.any (fun s => s.action.name == "Final Answer")
    || decide (env.max_time < tnow - env.start_time)

/-- The observation / exception produced by the branch structure of
`Environment.execute` before the step append.  `tnow` is the clock reading
used inside `is_final`. -/
def executeObs (env : EnvState) (a : Action) (tnow : Nat) : Except ExnKind String :=
  if a.name == "Final Answer" then .ok finalAnswerObs
  else if is_final env tnow then .ok shutdownObs
  else
    match lookupAction env.action_infos a.name with
    | none => .ok (invalidActionObs a.name env.action_infos)
    | some info =>
      match a.args with
      | .dict m =>
        match info.function m with
        | .ok s => .ok s
        | .tooLongPrompt => .ok tooLongObs
        | .llmError msg => .ok ("LLMError: " ++ msg)
        | .envException msg => .ok ("EnvError: " ++ msg)
        | .typeError _ => .ok ("EnvError: " ++ invalidInputError a.name info.usage)
        | .timeout => .error .timeoutExn
        | .other msg =>
          if containsSubstr "Connection aborted.".toList msg.toList then
            .error (.generic "Connection aborted for crfm")
          else
            .ok ("EnvError: Error executing " ++ a.name ++ ".")
      | .nondict _ => .ok (invalidInputError a.name info.usage)

/-- `Environment.execute`: compute the observation (or propagate), then append
a `Step` stamped with the second clock reading `tstep` (`step_time = time.time()`). -/
def execute (env : EnvState) (a : Action) (tnow tstep : Nat) : ExecResult × EnvState :=
  match executeObs env a tnow with
  | .error e => (.raised e, env)
  | .ok obs =>
    (.observed obs,
      { env with
          trace := { env.trace with
                      steps := env.trace.steps ++ [⟨a, obs, tstep⟩] } })

/-- The resume branch of `Environment._initialize_trace`: truncate `steps` to
`[0, resume_step]`, keep only low-level steps with timestamp strictly before
the truncation point's timestamp.  Python's `steps[-1]` raises on an empty
list, modelled by returning `none`. -/
def initializeTraceResume (prev : Trace) (resume_step : Nat)
    (infos : List ActionInfo) (task : String) : Option Trace :=
  let steps := prev.steps.take (resume_step + 1)
  match steps.getLast? with
  | none => none
  | some last =>
    some { steps := steps
           low_level_steps := prev.low_level_steps.filter
              (fun s => decide (s.timestamp < last.timestamp))
           action_infos := infos
           task_description := task }

/-- The read-only-file classification of `Environment._initialize_env`:
`can_modify_files = '*'` is a string, iterated character by character; for
each pattern character the files NOT matching it (by `fnmatch`) are appended
to the read-only list. -/
def globMatch : List Char → List Char → Bool
  | [], [] => true
  | [], _ :: _ => false
  | '*' :: ps, [] => globMatch ps []
  | '*' :: ps, c :: cs => globMatch ps (c :: cs) || globMatch ('*' :: ps) cs
  | '?' :: ps, _ :: cs => globMatch ps cs
  | p :: ps, c :: cs => (p == c) && globMatch ps cs
  | _ :: _, [] => false
termination_by ps s => (ps.length, s.length)

def fnmatch (name pattern : String) : Bool :=
  globMatch pattern.toList name.toList

def computeReadOnlyFiles (filenames : List String) : List String :=
  let can_modify_files := "*"
  can_modify_files.toList.foldl
    (fun acc not_ignore =>
      acc ++ filenames.filter (fun n => ! fnmatch n (String.singleton not_ignore)))
    []

/-! ### Agent control loop (`reactagent/agents/agent_research.py`) -/

/-- The chunking of `summarize_observation`:
`blocks = [observation[i:i+bs] for i in range(0, len(observation), bs)]`
with `bs` forcibly reset to 10000 on entry. -/
def chunkList (l : List Char) : List (List Char) :=
  if h : l = [] then []
  else l.take 10000 :: chunkList (l.drop 10000)
termination_by l.length
decreasing_by
  simp only [List.length_drop]
  have hp : 0 < l.length := List.length_pos.2 h
  omega

/-- Number of secondary completion calls made by one `summarize_observation`
call: one `complete_text_fast` per block, plus one reduction call when
`len(descriptions) != 1`. -/
def summarizeObservationCalls (obs : List Char) : Nat :=
  let blocks := chunkList obs
  blocks.length + (if blocks.length = 1 then 0 else 1)

/-- Number of summarization completion calls a control-loop cycle makes for
its observation: `ResearchAgent.run` calls `summarize_observation` only when
`len(observation) > 10000`. -/
def cycleSummaryCalls (obs : List Char) : Nat :=
  if obs.length > 10000 then summarizeObservationCalls obs else 0

/-- One in-memory history entry of the agent loop (only the fields the
pruning rule consults are relevant; the rest are carried as strings). -/
structure HistoryStep where
  observation : String
  feedback : String
deriving DecidableEq

/-- Python's `str.startswith`. -/
def strStartsWith (s pre : String) : Bool :=
  pre.toList.isPrefixOf s.toList

/-- The end-of-cycle history update of `ResearchAgent.run`: append the new
entry, then — only when the new observation does not start with
`"ActionInputParsingError"` — drop every entry whose observation does. -/
def updateHistory (hist : List HistoryStep) (new : HistoryStep) : List HistoryStep :=
  let hist1 := hist ++ [new]
  if strStartsWith new.observation "ActionInputParsingError" then hist1
  else hist1.filter (fun s => ! strStartsWith s.observation "ActionInputParsingError")

/-- What the claim under test asserts of a history: no entry other than
possibly the most recent one begins with the parsing-error marker. -/
def noStaleParsingErrors (hist : List HistoryStep) : Bool :=
  hist.dropLast.all (fun s => ! strStartsWith s.observation "ActionInputParsingError")

/-- Result of one completion attempt in the retry loop of
`ResearchAgent.run`: `parse_entries` plus the tool-name assertion either
yield entries or fail. -/
inductive ParseOutcome where
  | valid (entries : List (String × String))
  | invalid
deriving DecidableEq

/-- The retry loop `for _ in range(self.args.max_retries)` of
`ResearchAgent.run`: `attempt i` models the combined
`complete_text` + `parse_entries` + validation of the `i`-th iteration;
the first component counts completion calls made. -/
def retryLoop (attempt : Nat → ParseOutcome) :
    Nat → Nat → Nat × Option (List (String × String))
  | 0, calls => (calls, none)
  | n + 1, calls =>
    match attempt calls with
    | .valid e => (calls + 1, some e)
    | .invalid => retryLoop attempt n (calls + 1)

/-- The whole call-LLM-until-valid phase of a cycle: run the retry loop;
if no attempt produced a valid response the generator returns the
distinguished failure string. -/
def cycleResponse (max_retries : Nat) (attempt : Nat → ParseOutcome) :
    Nat × Except String (List (String × String)) :=
  match retryLoop attempt max_retries 0 with
  | (calls, none) => (calls, .error "No valid response after max_retries")
  | (calls, some e) => (calls, .ok e)

/-! ### Reference-semantics model for the `trace` property

`Environment.trace` is `copy.deepcopy(self._trace)`.  To state the aliasing
claim we model Python object references explicitly: a heap maps addresses to
`Trace` values; the environment holds the address of its internal trace;
`deepcopy` allocates a fresh address holding the same value; a caller
mutation rewrites the value stored at an address it holds. -/

structure TraceHeap where
  cells : Nat → Trace
  next : Nat

/-- `copy.deepcopy(self._trace)`: allocate a fresh cell holding the current
value of the trace at address `a`, return the fresh address. -/
def deepcopyTrace (h : TraceHeap) (a : Nat) : Nat × TraceHeap :=
  (h.next,
   { cells := fun i => if i = h.next then h.cells a else h.cells i
     next := h.next + 1 })

/-- A caller mutating the object it holds a reference to. -/
def mutateAt (h : TraceHeap) (a : Nat) (f : Trace → Trace) : TraceHeap :=
  { cells := fun i => if i = a then f (h.cells i) else h.cells i
    next := h.next }

/-- Apply a sequence of caller mutations, all through the same reference. -/
def mutateSeq (h : TraceHeap) (a : Nat) (fs : List (Trace → Trace)) : TraceHeap :=
  fs.foldl (fun hh f => mutateAt hh a f) h

/-! ### Helper lemmas -/

theorem globMatch_star (s : List Char) : globMatch ['*'] s = true := by
  induction s with
  | nil => simp [globMatch]
  | cons c cs ih => simp [globMatch, ih]

/-- `execute` either propagates an exception leaving the state unchanged, or
returns an observation and appends exactly the corresponding step. -/
theorem execute_trace_cases (env : EnvState) (a : Action) (tnow tstep : Nat) :
    (∃ e, executeObs env a tnow = .error e ∧
        execute env a tnow tstep = (.raised e, env))
    ∨ (∃ obs, executeObs env a tnow = .ok obs ∧
        execute env a tnow tstep =
          (.observed obs,
            { env with
                trace := { env.trace with
                            steps := env.trace.steps ++ [⟨a, obs, tstep⟩] } })) := by
  cases h : executeObs env a tnow with
  | error e => exact Or.inl ⟨e, rfl, by simp [execute, h]⟩
  | ok obs => exact Or.inr ⟨obs, rfl, by simp [execute, h]⟩

/-! ### Claim theorems -/

/-- Claim C9: under the default "modifiable" pattern (the single-character
pattern string `'*'`), every relative file path matches, so the computed
read-only file set is empty for every workspace contents. -/
theorem read_only_files_empty (filenames : List String) :
    computeReadOnlyFiles filenames = [] := by
  have h2 : filenames.filter (fun n => ! fnmatch n (String.singleton '*')) = [] := by
    apply List.filter_eq_nil_iff.2
    intro a _
    have : fnmatch a (String.singleton '*') = true := globMatch_star a.toList
    simp [this]
  calc computeReadOnlyFiles filenames
      = [] ++ filenames.filter (fun n => ! fnmatch n (String.singleton '*')) := rfl
    _ = [] := by rw [h2]; rfl

/-- Claim C2: once the step budget is exhausted (and no prior step was
"Final Answer" is not even needed), `is_final` is true and a further
`execute` with an action name other than "Final Answer" returns the fixed
shut-down observation — for every registry, so no registry entry is
consulted. -/
theorem budget_exhaustion_shutdown (env : EnvState) (a : Action) (tnow tstep : Nat)
    (hsteps : env.max_steps ≤ env.trace.steps.length)
    (hname : a.name ≠ "Final Answer") :
    is_final env tnow = true ∧
    (execute env a tnow tstep).1 = .observed shutdownObs := by
  have hfin : is_final env tnow = true := by
    simp [is_final, hsteps]
  refine ⟨hfin, ?_⟩
  have hobs : executeObs env a tnow = .ok shutdownObs := by
    simp [executeObs, hname, hfin]
  simp [execute, hobs]

def stepA : Step := ⟨⟨"foo", .dict []⟩, "done", 0⟩

def envBudget : EnvState :=
  { trace := ⟨[stepA], [], [], "task"⟩
    action_infos := []
    max_steps := 1
    max_time := 100
    start_time := 0 }

theorem budget_exhaustion_shutdown_witness :
    is_final envBudget 0 = true ∧
    (execute envBudget ⟨"bar", .dict []⟩ 0 1).1 = .observed shutdownObs :=
  budget_exhaustion_shutdown envBudget ⟨"bar", .dict []⟩ 0 1 (by decide) (by decide)

/-- Claim C5: every `execute` call that produces an observation appends
exactly one `Step` carrying that observation: the new `steps` is the old
`steps` with one step appended, so its length grows by exactly one. -/
theorem execute_appends_one_step (env : EnvState) (a : Action) (tnow tstep : Nat)
    (obs : String) (h : (execute env a tnow tstep).1 = .observed obs) :
    (execute env a tnow tstep).2.trace.steps
        = env.trace.steps ++ [⟨a, obs, tstep⟩]
    ∧ (execute env a tnow tstep).2.trace.steps.length
        = env.trace.steps.length + 1 := by
  rcases execute_trace_cases env a tnow tstep with ⟨e, _, heq⟩ | ⟨obs2, _, heq⟩
  · rw [heq] at h; exact absurd h (by simp)
  · rw [heq] at h ⊢
    simp only [ExecResult.observed.injEq] at h
    subst h
    simp

def envEmpty : EnvState :=
  { trace := ⟨[], [], [], "task"⟩
    action_infos := []
    max_steps := 5
    max_time := 100
    start_time := 0 }

theorem execute_appends_one_step_witness :
    (execute envEmpty ⟨"NoSuchTool", .dict []⟩ 0 1).2.trace.steps
        = envEmpty.trace.steps
            ++ [⟨⟨"NoSuchTool", .dict []⟩, invalidActionObs "NoSuchTool" [], 1⟩]
    ∧ (execute envEmpty ⟨"NoSuchTool", .dict []⟩ 0 1).2.trace.steps.length
        = envEmpty.trace.steps.length + 1 :=
  execute_appends_one_step envEmpty ⟨"NoSuchTool", .dict []⟩ 0 1
    (invalidActionObs "NoSuchTool" []) (by decide)

/-- If every attempt is invalid, the retry loop runs to the end, making one
completion call per iteration and yielding no entries. -/
theorem retryLoop_all_invalid (attempt : Nat → ParseOutcome)
    (h : ∀ i, attempt i = .invalid) :
    ∀ n c, retryLoop attempt n c = (c + n, none) := by
  intro n
  induction n with
  | zero => intro c; simp [retryLoop]
  | succ n ih =>
    intro c
    simp only [retryLoop, h c]
    rw [ih (c + 1)]
    ext <;> simp <;> omega

/-- Claim C8: if every completion response fails parsing/validation, the
control-loop cycle makes exactly `max_retries` completion attempts and then
halts with the distinguished failure result. -/
theorem retry_ceiling (m : Nat) (attempt : Nat → ParseOutcome)
    (h : ∀ i, attempt i = .invalid) :
    cycleResponse m attempt = (m, .error "No valid response after max_retries") := by
  simp [cycleResponse, retryLoop_all_invalid attempt h m 0]

theorem retry_ceiling_witness :
    cycleResponse 3 (fun _ => .invalid)
      = (3, .error "No valid response after max_retries") :=
  retry_ceiling 3 (fun _ => .invalid) (fun _ => rfl)

def peStep1 : HistoryStep := ⟨"ActionInputParsingError: missing comma", ""⟩

def peStep2 : HistoryStep := ⟨"ActionInputParsingError: bad json", "fb"⟩

def okStep : HistoryStep := ⟨"ok output", ""⟩

/-- Claim C7 counterexample: two consecutive parsing-error cycles leave a
history whose FIRST entry begins with the marker while not being the most
recent entry — the filter only runs on cycles whose own observation is not a
parsing error. -/
theorem history_pruning_counterexample :
    noStaleParsingErrors (updateHistory (updateHistory [] peStep1) peStep2) = false := by
  decide

/-- Claim C7 (amended): after a completed cycle, if the new observation does
not begin with the parsing-error marker then NO entry of the resulting
history begins with it; if the new observation does begin with it, the
history is the old history with the new entry appended, retaining any
earlier marker entries. -/
theorem history_pruning_amended (hist : List HistoryStep) (new : HistoryStep) :
    (strStartsWith new.observation "ActionInputParsingError" = false →
      (updateHistory hist new).all
        (fun s => ! strStartsWith s.observation "ActionInputParsingError") = true)
    ∧ (strStartsWith new.observation "ActionInputParsingError" = true →
      updateHistory hist new = hist ++ [new]) := by
  constructor
  · intro h
    simp only [updateHistory, h, Bool.false_eq_true, if_false]
    rw [List.all_eq_true]
    intro x hx
    rw [List.mem_filter] at hx
    exact hx.2
  · intro h
    simp [updateHistory, h]

theorem history_pruning_amended_witness :
    ((updateHistory [peStep1] okStep).all
        (fun s => ! strStartsWith s.observation "ActionInputParsingError") = true)
    ∧ updateHistory [okStep] peStep1 = [okStep] ++ [peStep1] :=
  ⟨(history_pruning_amended [peStep1] okStep).1 (by decide),
   (history_pruning_amended [okStep] peStep1).2 (by decide)⟩

/-- Mutations through a reference distinct from `b` never change the value
stored at `b`. -/
theorem mutateSeq_frame (fs : List (Trace → Trace)) :
    ∀ (h : TraceHeap) (addr b : Nat), b ≠ addr →
      (mutateSeq h addr fs).cells b = h.cells b := by
  induction fs with
  | nil => intro h addr b _; rfl
  | cons f rest ih =>
    intro h addr b hne
    show (mutateSeq (mutateAt h addr f) addr rest).cells b = h.cells b
    rw [ih (mutateAt h addr f) addr b hne]
    simp [mutateAt, hne]

/-- Claim C10: the `trace` accessor deep-copies the internal trace into a
fresh cell; however a caller then mutates the returned object, the value at
the environment's internal address is unchanged, so all subsequent behaviour
computed from the internal trace is unaffected. -/
theorem trace_deepcopy_frame (h : TraceHeap) (a : Nat) (fs : List (Trace → Trace))
    (ha : a < h.next) :
    (mutateSeq (deepcopyTrace h a).2 (deepcopyTrace h a).1 fs).cells a = h.cells a := by
  have hne : a ≠ (deepcopyTrace h a).1 := by
    simp only [deepcopyTrace]
    omega
  rw [mutateSeq_frame fs (deepcopyTrace h a).2 (deepcopyTrace h a).1 a hne]
  simp only [deepcopyTrace]
  simp [Nat.ne_of_lt ha]

def trivTrace : Trace := ⟨[], [], [], "task"⟩

def heapW : TraceHeap := ⟨fun _ => trivTrace, 1⟩

theorem trace_deepcopy_frame_witness :
    (mutateSeq (deepcopyTrace heapW 0).2 (deepcopyTrace heapW 0).1
        [fun t => { t with task_description := "mutated" }]).cells 0
      = heapW.cells 0 :=
  trace_deepcopy_frame heapW 0 [fun t => { t with task_description := "mutated" }]
    (by decide)

/-- The last element of `l.take (k+1)` is `l[k]` whenever `k < l.length`. -/
theorem getLast_take_succ (l : List Step) (k : Nat) (hk : k < l.length) :
    (l.take (k + 1)).getLast? = some (l.get ⟨k, hk⟩) := by
  rw [List.getLast?_eq_getElem?]
  have hlen : (l.take (k + 1)).length = k + 1 := by
    rw [List.length_take]
    omega
  rw [hlen]
  simp only [Nat.add_sub_cancel]
  rw [List.getElem?_take, if_pos (Nat.lt_succ_self k)]
  simp [List.getElem?_eq_getElem hk]

/-- Claim C3: resuming at step index `k` (within range) yields a trace whose
`steps` are exactly the first `k+1` prior steps and whose `low_level_steps`
are exactly the prior low-level steps with timestamp strictly below step
`k`'s timestamp. -/
theorem resume_truncation (prev : Trace) (k : Nat)
    (infos : List ActionInfo) (task : String)
    (hk : k < prev.steps.length) :
    ∃ tr, initializeTraceResume prev k infos task = some tr
      ∧ tr.steps = prev.steps.take (k + 1)
      ∧ tr.low_level_steps = prev.low_level_steps.filter
          (fun s => decide (s.timestamp < (prev.steps.get ⟨k, hk⟩).timestamp)) := by
  have hlast := getLast_take_succ prev.steps k hk
  have hmain : initializeTraceResume prev k infos task
      = some { steps := prev.steps.take (k + 1)
               low_level_steps := prev.low_level_steps.filter
                  (fun s => decide (s.timestamp
                      < (prev.steps.get ⟨k, hk⟩).timestamp))
               action_infos := infos
               task_description := task } := by
    simp only [initializeTraceResume, hlast]
  exact ⟨_, hmain, rfl, rfl⟩

def stepT (n : Nat) : Step := ⟨⟨"foo", .dict []⟩, "obs", n⟩

def prevTrace : Trace :=
  ⟨[stepT 1, stepT 2, stepT 3], [stepT 0, stepT 1, stepT 2, stepT 5], [], "task"⟩

theorem resume_truncation_witness :
    ∃ tr, initializeTraceResume prevTrace 1 [] "task" = some tr
      ∧ tr.steps = prevTrace.steps.take 2
      ∧ tr.low_level_steps = prevTrace.low_level_steps.filter
          (fun s => decide (s.timestamp
              < (prevTrace.steps.get ⟨1, by decide⟩).timestamp)) :=
  resume_truncation prevTrace 1 [] "task" (by decide)

def connAbortInfo : ActionInfo :=
  ⟨"foo", [("arg", "desc")], true, fun _ => .other "Connection aborted."⟩

def envConn : EnvState :=
  { trace := ⟨[], [], [connAbortInfo], "task"⟩
    action_infos := [connAbortInfo]
    max_steps := 5
    max_time := 100
    start_time := 0 }

/-- Claim C1 counterexample: the timeout signal is NOT the sole uncaught
exception — a generic exception whose message contains "Connection aborted."
is re-raised (as a fresh exception) instead of being normalized to the
generic `EnvError` observation. -/
theorem execute_error_normalization_counterexample :
    (execute envConn ⟨"foo", .dict []⟩ 0 0).1
        = .raised (.generic "Connection aborted for crfm")
    ∧ (execute envConn ⟨"foo", .dict []⟩ 0 0).1
        ≠ .observed "EnvError: Error executing foo." := by
  constructor
  · rfl
  · decide

/-- Claim C1 (amended): with a registered action and mapping-typed args, a
raising callable is normalized exactly as the spec states, EXCEPT that both
the timeout signal and any exception whose message contains
"Connection aborted." propagate out of `execute` instead of being
normalized. -/
theorem execute_error_normalization (env : EnvState) (a : Action)
    (tnow tstep : Nat) (info : ActionInfo) (m : List (String × String))
    (hname : a.name ≠ "Final Answer")
    (hfin : is_final env tnow = false)
    (hlook : lookupAction env.action_infos a.name = some info)
    (hargs : a.args = .dict m) :
    (execute env a tnow tstep).1 =
      match info.function m with
      | .ok s => .observed s
      | .tooLongPrompt => .observed tooLongObs
      | .llmError msg => .observed ("LLMError: " ++ msg)
      | .envException msg => .observed ("EnvError: " ++ msg)
      | .typeError _ => .observed ("EnvError: " ++ invalidInputError a.name info.usage)
      | .timeout => .raised .timeoutExn
      | .other msg =>
        if containsSubstr "Connection aborted.".toList msg.toList then
          .raised (.generic "Connection aborted for crfm")
        else .observed ("EnvError: Error executing " ++ a.name ++ ".") := by
  have hb : (a.name == "Final Answer") = false := by
    simp [hname]
  have hobs : executeObs env a tnow =
      match info.function m with
      | .ok s => .ok s
      | .tooLongPrompt => .ok tooLongObs
      | .llmError msg => .ok ("LLMError: " ++ msg)
      | .envException msg => .ok ("EnvError: " ++ msg)
      | .typeError _ => .ok ("EnvError: " ++ invalidInputError a.name info.usage)
      | .timeout => .error .timeoutExn
      | .other msg =>
        if containsSubstr "Connection aborted.".toList msg.toList then
          .error (.generic "Connection aborted for crfm")
        else .ok ("EnvError: Error executing " ++ a.name ++ ".") := by
    simp only [executeObs, hb, Bool.false_eq_true, if_false, hfin, hlook, hargs]
  cases hout : info.function m with
  | ok s => simp [execute, hobs, hout]
  | tooLongPrompt => simp [execute, hobs, hout]
  | llmError msg => simp [execute, hobs, hout]
  | envException msg => simp [execute, hobs, hout]
  | typeError msg => simp [execute, hobs, hout]
  | timeout => simp [execute, hobs, hout]
  | other msg =>
    cases hc : containsSubstr "Connection aborted.".toList msg.toList with
    | true =>
      have hobs2 : executeObs env a tnow
          = .error (.generic "Connection aborted for crfm") := by
        rw [hobs]; simp only [hout]; rw [if_pos hc]
      have hr : (execute env a tnow tstep).1
          = .raised (.generic "Connection aborted for crfm") := by
        simp [execute, hobs2]
      rw [hr]
      simp only [hout]
      rw [if_pos hc]
    | false =>
      have hobs2 : executeObs env a tnow
          = .ok ("EnvError: Error executing " ++ a.name ++ ".") := by
        rw [hobs]; simp only [hout]; rw [if_neg (by rw [hc]; simp)]
      have hr : (execute env a tnow tstep).1
          = .observed ("EnvError: Error executing " ++ a.name ++ ".") := by
        simp [execute, hobs2]
      rw [hr]
      simp only [hout]
      rw [if_neg (by rw [hc]; simp)]

def llmFailInfo : ActionInfo :=
  ⟨"foo", [("arg", "desc")], true, fun _ => .llmError "boom"⟩

def envLLM : EnvState :=
  { trace := ⟨[], [], [llmFailInfo], "task"⟩
    action_infos := [llmFailInfo]
    max_steps := 5
    max_time := 100
    start_time := 0 }

theorem execute_error_normalization_witness :
    (execute envLLM ⟨"foo", .dict []⟩ 0 0).1 = .observed "LLMError: boom" := by
  have h := execute_error_normalization envLLM ⟨"foo", .dict []⟩ 0 0 llmFailInfo []
      (by decide) (by decide) rfl rfl
  exact h

/-- A whole session: one `execute` per script entry, each entry carrying the
action and the two clock readings taken during that call. -/
def runSession (env : EnvState) : List (Action × Nat × Nat) → EnvState
  | [] => env
  | (a, tn, ts) :: rest => runSession (execute env a tn ts).2 rest

/-- The clock readings of a session are non-decreasing over real time:
within a call the `is_final` reading precedes the step timestamp, and
readings never decrease across calls. -/
def clockOrdered : Nat → List (Action × Nat × Nat) → Bool
  | _, [] => true
  | t, (_, tn, ts) :: rest =>
    decide (t ≤ tn) && decide (tn ≤ ts) && clockOrdered ts rest

/-- Monotone timestamps along a step list, with every timestamp bounded by
`t`, is preserved by a whole clock-ordered session. -/
theorem runSession_mono (script : List (Action × Nat × Nat)) :
    ∀ (env : EnvState) (t0 : Nat),
      List.Chain' (fun x y : Step => x.timestamp ≤ y.timestamp) env.trace.steps →
      (∀ s ∈ env.trace.steps, s.timestamp ≤ t0) →
      clockOrdered t0 script = true →
      List.Chain' (fun x y : Step => x.timestamp ≤ y.timestamp)
        (runSession env script).trace.steps := by
  induction script with
  | nil => intro env t0 hchain _ _; exact hchain
  | cons entry rest ih =>
    intro env t0 hchain hbound hclock
    obtain ⟨a, tn, ts⟩ := entry
    simp only [clockOrdered, Bool.and_eq_true, decide_eq_true_eq] at hclock
    obtain ⟨⟨h1, h2⟩, hrest⟩ := hclock
    show List.Chain' _ (runSession (execute env a tn ts).2 rest).trace.steps
    rcases execute_trace_cases env a tn ts with ⟨e, _, heq⟩ | ⟨obs, _, heq⟩
    · rw [heq]
      exact ih env ts hchain
        (fun s hs => le_trans (hbound s hs) (le_trans h1 h2)) hrest
    · rw [heq]
      apply ih _ ts _ _ hrest
      · show List.Chain' _ (env.trace.steps ++ [⟨a, obs, ts⟩])
        rw [List.chain'_append]
        refine ⟨hchain, List.chain'_singleton _, ?_⟩
        intro x hx y hy
        simp only [List.head?_cons, Option.mem_def, Option.some.injEq] at hy
        subst hy
        have hxmem : x ∈ env.trace.steps := by
          obtain ⟨hne, hx2⟩ := List.mem_getLast?_eq_getLast hx
          rw [hx2]
          exact List.getLast_mem hne
        exact le_trans (hbound x hxmem) (le_trans h1 h2)
      · intro s hs
        simp only [List.mem_append, List.mem_singleton] at hs
        rcases hs with hs | hs
        · exact le_trans (hbound s hs) (le_trans h1 h2)
        · subst hs; exact le_rfl

/-- Claim C6: for every session (any starting trace whose timestamps are
monotone and bounded by the session clock, and any clock-ordered script of
executed actions), consecutive steps of the resulting trace have
non-decreasing timestamps. -/
theorem timestamps_monotone (env : EnvState) (script : List (Action × Nat × Nat))
    (t0 : Nat)
    (hchain : List.Chain' (fun x y : Step => x.timestamp ≤ y.timestamp)
        env.trace.steps)
    (hbound : ∀ s ∈ env.trace.steps, s.timestamp ≤ t0)
    (hclock : clockOrdered t0 script = true) :
    ∀ i (hi : i + 1 < (runSession env script).trace.steps.length),
      ((runSession env script).trace.steps.get
          ⟨i, Nat.lt_of_succ_lt hi⟩).timestamp ≤
      ((runSession env script).trace.steps.get ⟨i + 1, hi⟩).timestamp := by
  have h := runSession_mono script env t0 hchain hbound hclock
  intro i hi
  exact List.chain'_iff_get.1 h i (by omega)

def envM : EnvState :=
  { trace := ⟨[], [], [], "task"⟩
    action_infos := []
    max_steps := 5
    max_time := 100
    start_time := 0 }

def scriptM : List (Action × Nat × Nat) :=
  [(⟨"x", .dict []⟩, 1, 2), (⟨"y", .dict []⟩, 3, 4)]

theorem timestamps_monotone_witness :
    ((runSession envM scriptM).trace.steps.get
        ⟨0, by decide⟩).timestamp ≤
    ((runSession envM scriptM).trace.steps.get ⟨1, by decide⟩).timestamp :=
  timestamps_monotone envM scriptM 0 (by simp [envM]) (by simp [envM]) (by decide)
    0 (by decide)

theorem chunkList_length (l : List Char) :
    (chunkList l).length = (l.length + 9999) / 10000 := by
  induction l using chunkList.induct with
  | case1 => simp [chunkList]
  | case2 l hne ih =>
    rw [chunkList, dif_neg hne]
    rw [List.length_cons, ih, List.length_drop]
    have hn : 0 < l.length := List.length_pos.2 hne
    rcases le_or_lt l.length 10000 with h | h
    · have e1 : l.length - 10000 + 9999 = 9999 := by omega
      have e2 : l.length + 9999 = (l.length - 1) + 10000 := by omega
      rw [e1, e2, Nat.add_div_right _ (by norm_num)]
      have e3 : (9999 : Nat) / 10000 = 0 := by norm_num
      have e4 : (l.length - 1) / 10000 = 0 := Nat.div_eq_of_lt (by omega)
      rw [e3, e4]
    · have e1 : l.length - 10000 + 9999 = l.length - 1 := by omega
      have e2 : l.length + 9999 = (l.length - 1) + 10000 := by omega
      rw [e1, e2, Nat.add_div_right _ (by norm_num)]

theorem chunkList_join (l : List Char) : (chunkList l).flatten = l := by
  induction l using chunkList.induct with
  | case1 => simp [chunkList]
  | case2 l hne ih =>
    rw [chunkList, dif_neg hne]
    rw [List.flatten_cons, ih, List.take_append_drop]

theorem chunkList_all_le (l : List Char) :
    (chunkList l).all (fun b => decide (b.length ≤ 10000)) = true := by
  induction l using chunkList.induct with
  | case1 => simp [chunkList]
  | case2 l hne ih =>
    rw [chunkList, dif_neg hne]
    rw [List.all_cons, ih]
    have : (l.take 10000).length ≤ 10000 := by
      rw [List.length_take]; omega
    simp [this]

/-- Claim C4 counterexample: in the control loop an observation of exactly
the chunk boundary length (10000) is NOT summarized at all — the trigger is
strict (`len(observation) > 10000`) — so zero secondary calls are made, not
one. -/
theorem summarization_trigger_counterexample :
    cycleSummaryCalls (List.replicate 10000 'a') = 0
    ∧ cycleSummaryCalls (List.replicate 10000 'a') ≠ 1 := by
  have h : cycleSummaryCalls (List.replicate 10000 'a') = 0 := by
    have hl : (List.replicate 10000 'a').length = 10000 := by
      simp only [List.length_replicate]
    rw [cycleSummaryCalls, if_neg (by omega)]
  exact ⟨h, by rw [h]; omega⟩

/-- Claim C4 (amended): summarization happens only for observations STRICTLY
longer than 10000 units (one of exactly the boundary length is left
unsummarized); when it happens, the observation is partitioned into
contiguous chunks of at most 10000 units, one secondary call per chunk,
plus exactly one reduction call (there are always at least two chunks);
a 25000-unit observation yields 3 chunk calls plus the reduction call. -/
theorem summarization_trigger_amended (obs : List Char) :
    (obs.length ≤ 10000 → cycleSummaryCalls obs = 0)
    ∧ (10000 < obs.length →
        cycleSummaryCalls obs = (chunkList obs).length + 1
        ∧ 2 ≤ (chunkList obs).length)
    ∧ (chunkList obs).flatten = obs
    ∧ (chunkList obs).all (fun b => decide (b.length ≤ 10000)) = true
    ∧ (obs.length = 25000 → cycleSummaryCalls obs = 4) := by
  have hlen := chunkList_length obs
  refine ⟨?_, ?_, chunkList_join obs, chunkList_all_le obs, ?_⟩
  · intro h
    rw [cycleSummaryCalls, if_neg (by omega)]
  · intro h
    have h2 : 2 ≤ (chunkList obs).length := by
      rw [hlen, Nat.le_div_iff_mul_le (by norm_num)]
      omega
    refine ⟨?_, h2⟩
    rw [cycleSummaryCalls, if_pos (by omega)]
    rw [summarizeObservationCalls]
    have hne : ¬ (chunkList obs).length = 1 := by omega
    simp [hne]
  · intro h
    have hb : (chunkList obs).length = 3 := by
      rw [hlen, h]
    rw [cycleSummaryCalls, if_pos (by omega)]
    rw [summarizeObservationCalls]
    simp [hb]

theorem summarization_trigger_amended_witness :
    cycleSummaryCalls (List.replicate 5 'a') = 0
    ∧ cycleSummaryCalls (List.replicate 10001 'b')
        = (chunkList (List.replicate 10001 'b')).length + 1
    ∧ cycleSummaryCalls (List.replicate 25000 'c') = 4 :=
  ⟨(summarization_trigger_amended (List.replicate 5 'a')).1 (by simp only [List.length_replicate]; omega),
   ((summarization_trigger_amended (List.replicate 10001 'b')).2.1 (by simp only [List.length_replicate]; omega)).1,
   (summarization_trigger_amended (List.replicate 25000 'c')).2.2.2.2 (by simp only [List.length_replicate])⟩

end MLRCopilot
